import Mathlib

/-!
# Verification of the indicator / pipeline logic of `dashboard.py`

Shallow embedding of the trading-dashboard script.  Prices are modelled as
exact rationals (`ℚ`); the pandas missing-value (`NaN`) outcomes are modelled
as `Option.none`; IEEE special cases that the script relies on
(`x / 0 = inf` for `x > 0`, `0 / 0 = NaN`) are modelled by explicit case
splits where the source performs the corresponding float division.
-/

namespace Dashboard

/-- Arithmetic mean of a list of rationals (`sum / count`). -/
def mean (xs : List ℚ) : ℚ := xs.sum / (xs.length : ℚ)

/-- The trailing window that pandas `rolling(window=w, min_periods=1)` sees at
position `i`: the last `min (i+1) w` elements among the first `i+1`. -/
def windowAt (closes : List ℚ) (w i : ℕ) : List ℚ :=
  (closes.take (i + 1)).drop (i + 1 - w)

/-- `df['Close'].rolling(window=window, min_periods=1).mean()` at position `i`
(source line 92). -/
def smaAt (closes : List ℚ) (w i : ℕ) : ℚ := mean (windowAt closes w i)

/-- The whole `df['SMA']` column (aligned with the input, same length). -/
def smaSeq (closes : List ℚ) (w : ℕ) : List ℚ :=
  (List.range closes.length).map (smaAt closes w)

theorem windowAt_length (closes : List ℚ) (w i : ℕ) (hi : i < closes.length) :
    (windowAt closes w i).length = min (i + 1) w := by
  simp only [windowAt, List.length_drop, List.length_take]
  omega

theorem windowAt_of_le (closes : List ℚ) (w i : ℕ) (h : i + 1 ≤ w) :
    windowAt closes w i = closes.take (i + 1) := by
  simp [windowAt, Nat.sub_eq_zero_of_le h]

theorem windowAt_of_ge (closes : List ℚ) (w i : ℕ) (h : w ≤ i + 1) :
    windowAt closes w i = (closes.drop (i + 1 - w)).take w := by
  rw [windowAt, List.drop_take]
  congr 1
  omega

/-- C1: for a non-empty close sequence and any `w ≥ 1` the SMA column has the
length of the input, `SMA[0]` is the first close, positions `i < w - 1` carry
the mean of the first `i+1` closes (shrinking window) and positions with
`w ≤ i + 1` carry the mean of `closes[i-w+1..i]`.  No relation between `w` and
the length is assumed, so the statement also covers `w` exceeding it. -/
theorem sma_spec (closes : List ℚ) (w : ℕ) (hne : closes ≠ []) (hw : 1 ≤ w) :
    (smaSeq closes w).length = closes.length ∧
    smaAt closes w 0 = closes.headI ∧
    (∀ i, i < closes.length → i + 1 < w →
      smaAt closes w i = (closes.take (i + 1)).sum / (i + 1)) ∧
    (∀ i, i < closes.length → w ≤ i + 1 →
      smaAt closes w i = ((closes.drop (i + 1 - w)).take w).sum / w) := by
  refine ⟨by simp [smaSeq], ?_, ?_, ?_⟩
  · obtain ⟨c, cs, rfl⟩ := List.exists_cons_of_ne_nil hne
    rw [smaAt, windowAt_of_le _ _ _ hw]
    simp [mean]
  · intro i hi hiw
    rw [smaAt, windowAt_of_le _ _ _ (le_of_lt hiw), mean]
    have hmin : (closes.take (i + 1)).length = i + 1 := by
      rw [List.length_take]; omega
    rw [hmin]
    push_cast
    ring
  · intro i hi hwi
    have hlen : ((closes.drop (i + 1 - w)).take w).length = w := by
      rw [List.length_take, List.length_drop]
      omega
    rw [smaAt, windowAt_of_ge _ _ _ hwi, mean, hlen]

/-- Witness for C1 at `closes = [10,11,12,11,13]`, `w = 3`. -/
theorem sma_spec_witness :
    (([10, 11, 12, 11, 13] : List ℚ) ≠ [] ∧ 1 ≤ 3) ∧
    ((smaSeq [10, 11, 12, 11, 13] 3).length = ([10, 11, 12, 11, 13] : List ℚ).length ∧
     smaAt [10, 11, 12, 11, 13] 3 0 = ([10, 11, 12, 11, 13] : List ℚ).headI ∧
     (∀ i, i < ([10, 11, 12, 11, 13] : List ℚ).length → i + 1 < 3 →
       smaAt [10, 11, 12, 11, 13] 3 i =
         (([10, 11, 12, 11, 13] : List ℚ).take (i + 1)).sum / (i + 1)) ∧
     (∀ i, i < ([10, 11, 12, 11, 13] : List ℚ).length → 3 ≤ i + 1 →
       smaAt [10, 11, 12, 11, 13] 3 i =
         ((([10, 11, 12, 11, 13] : List ℚ).drop (i + 1 - 3)).take 3).sum / 3)) :=
  ⟨⟨by decide, by decide⟩, sma_spec [10, 11, 12, 11, 13] 3 (by decide) (by decide)⟩

/-- `df['Close'].diff()` at position `j` (source line 99): `NaN` (modelled as
`none`) at position 0 and outside the frame, otherwise the period-over-period
delta. -/
def deltaAt (closes : List ℚ) (j : ℕ) : Option ℚ :=
  if 1 ≤ j ∧ j < closes.length then some (closes.getD j 0 - closes.getD (j - 1) 0)
  else none

/-- `delta.where(delta > 0, 0)` (source line 100).  pandas `where` keeps a value
only where the test holds and writes `0` elsewhere; `NaN > 0` is false, so the
leading `NaN` of `diff` is also replaced by `0`. -/
def gainRawAt (closes : List ℚ) (j : ℕ) : ℚ :=
  match deltaAt closes j with
  | some d => if 0 < d then d else 0
  | none => 0

/-- `(-delta.where(delta < 0, 0))` (source line 101), same masking rule. -/
def lossRawAt (closes : List ℚ) (j : ℕ) : ℚ :=
  match deltaAt closes j with
  | some d => if d < 0 then -d else 0
  | none => 0

/-- `gain = (...).rolling(window=14).mean()` (source line 100): the masked
series has no missing values, so the mean is defined as soon as the 14
positions `i-13..i` exist in the frame, i.e. for `13 ≤ i < n`. -/
def gainAt (closes : List ℚ) (i : ℕ) : Option ℚ :=
  if 13 ≤ i ∧ i < closes.length then
    some (((List.range 14).map (fun t => gainRawAt closes (i - 13 + t))).sum / 14)
  else none

/-- `loss = (...).rolling(window=14).mean()` (source line 101). -/
def lossAt (closes : List ℚ) (i : ℕ) : Option ℚ :=
  if 13 ≤ i ∧ i < closes.length then
    some (((List.range 14).map (fun t => lossRawAt closes (i - 13 + t))).sum / 14)
  else none

/-- `rs = gain / loss; df['RSI'] = 100 - (100 / (1 + rs))` (source lines
102-103), with the float special cases the script relies on spelt out:
`g / 0 = +inf` for `g > 0` collapses the expression to `100`, while
`0 / 0 = NaN` propagates (modelled as `none`). -/
def rsiAt (closes : List ℚ) (i : ℕ) : Option ℚ :=
  (gainAt closes i).bind fun g =>
    (lossAt closes i).bind fun l =>
      if l = 0 then (if g = 0 then none else some 100)
      else some (100 - 100 / (1 + g / l))

theorem gainRawAt_nonneg (closes : List ℚ) (j : ℕ) : 0 ≤ gainRawAt closes j := by
  rcases h : deltaAt closes j with _ | d <;> simp only [gainRawAt, h]
  · exact le_refl 0
  · split
    · linarith
    · exact le_refl 0

theorem lossRawAt_nonneg (closes : List ℚ) (j : ℕ) : 0 ≤ lossRawAt closes j := by
  rcases h : deltaAt closes j with _ | d <;> simp only [lossRawAt, h]
  · exact le_refl 0
  · split
    · linarith
    · exact le_refl 0

theorem gainAt_nonneg (closes : List ℚ) (i : ℕ) (g : ℚ)
    (h : gainAt closes i = some g) : 0 ≤ g := by
  rw [gainAt] at h
  split at h
  · obtain rfl := Option.some.inj h
    apply div_nonneg _ (by norm_num)
    apply List.sum_nonneg
    intro x hx
    simp only [List.mem_map] at hx
    obtain ⟨t, _, rfl⟩ := hx
    exact gainRawAt_nonneg _ _
  · cases h

theorem lossAt_nonneg (closes : List ℚ) (i : ℕ) (l : ℚ)
    (h : lossAt closes i = some l) : 0 ≤ l := by
  rw [lossAt] at h
  split at h
  · obtain rfl := Option.some.inj h
    apply div_nonneg _ (by norm_num)
    apply List.sum_nonneg
    intro x hx
    simp only [List.mem_map] at hx
    obtain ⟨t, _, rfl⟩ := hx
    exact lossRawAt_nonneg _ _
  · cases h

/-- C2: wherever RSI is defined it lies in `[0, 100]`; it equals 100 exactly
when the average loss is 0 and the average gain positive; and a zero average
loss with positive average gain yields `RSI = 100` (the division by zero never
surfaces as an error). -/
theorem rsi_bounds (closes : List ℚ) (i : ℕ) (r : ℚ)
    (hr : rsiAt closes i = some r) :
    (0 ≤ r ∧ r ≤ 100) ∧
    (r = 100 ↔ lossAt closes i = some 0 ∧ ∃ g, gainAt closes i = some g ∧ 0 < g) ∧
    (lossAt closes i = some 0 → rsiAt closes i = some 100) := by
  rcases hg : gainAt closes i with _ | g
  · simp only [rsiAt, hg, Option.none_bind] at hr
    cases hr
  rcases hl : lossAt closes i with _ | l
  · simp only [rsiAt, hg, hl, Option.some_bind, Option.none_bind] at hr
    cases hr
  have hg0 : 0 ≤ g := gainAt_nonneg _ _ _ hg
  have hl0 : 0 ≤ l := lossAt_nonneg _ _ _ hl
  simp only [rsiAt, hg, hl, Option.some_bind] at hr
  by_cases hlz : l = 0
  · subst hlz
    rw [if_pos rfl] at hr
    by_cases hgz : g = 0
    · rw [if_pos hgz] at hr; cases hr
    · rw [if_neg hgz] at hr
      obtain rfl := Option.some.inj hr
      have hgpos : 0 < g := lt_of_le_of_ne hg0 (Ne.symm hgz)
      refine ⟨⟨by norm_num, le_refl _⟩, ?_, ?_⟩
      · exact ⟨fun _ => ⟨rfl, g, rfl, hgpos⟩, fun _ => rfl⟩
      · intro _
        simp [rsiAt, hg, hl, hgz]
  · rw [if_neg hlz] at hr
    obtain rfl := Option.some.inj hr
    have hlpos : 0 < l := lt_of_le_of_ne hl0 (Ne.symm hlz)
    have hq0 : 0 ≤ g / l := div_nonneg hg0 hl0
    have h1q : (0 : ℚ) < 1 + g / l := by linarith
    have hfrac_pos : 0 < 100 / (1 + g / l) := by positivity
    have hfrac_le : 100 / (1 + g / l) ≤ 100 := by
      rw [div_le_iff₀ h1q]; nlinarith
    refine ⟨⟨by linarith, by linarith⟩, ?_, ?_⟩
    · constructor
      · intro habs
        exfalso
        have : 100 / (1 + g / l) = 0 := by linarith
        linarith
      · rintro ⟨habs, -⟩
        exact absurd (Option.some.inj habs) hlz
    · intro habs
      exact absurd (Option.some.inj habs) hlz

/-- Witness for C2: `closes = [0,1,...,13,12]` at `i = 14` gives
`RSI = 650/7 ≈ 92.86`. -/
theorem rsi_bounds_witness :
    rsiAt [0, 1, 2, 3, 4, 5, 6, 7, 8, 9, 10, 11, 12, 13, 12] 14 = some (650 / 7) ∧
    ((0 ≤ (650 / 7 : ℚ) ∧ (650 / 7 : ℚ) ≤ 100) ∧
     ((650 / 7 : ℚ) = 100 ↔
       lossAt [0, 1, 2, 3, 4, 5, 6, 7, 8, 9, 10, 11, 12, 13, 12] 14 = some 0 ∧
       ∃ g, gainAt [0, 1, 2, 3, 4, 5, 6, 7, 8, 9, 10, 11, 12, 13, 12] 14 = some g ∧ 0 < g) ∧
     (lossAt [0, 1, 2, 3, 4, 5, 6, 7, 8, 9, 10, 11, 12, 13, 12] 14 = some 0 →
       rsiAt [0, 1, 2, 3, 4, 5, 6, 7, 8, 9, 10, 11, 12, 13, 12] 14 = some 100)) := by
  have h : rsiAt [0, 1, 2, 3, 4, 5, 6, 7, 8, 9, 10, 11, 12, 13, 12] 14 = some (650 / 7) := by
    norm_num [rsiAt, gainAt, lossAt, gainRawAt, lossRawAt, deltaAt, List.range_succ]
  exact ⟨h, rsi_bounds _ 14 _ h⟩

/-- C10: over a flat stretch (the 14 trailing deltas all zero) both rolling
averages are `0` and RSI is the missing value (`NaN` from `0/0`), neither 100
nor an error. -/
theorem rsi_flat (closes : List ℚ) (i : ℕ) (h14 : 14 ≤ i) (hlen : i < closes.length)
    (hflat : ∀ j, i - 13 ≤ j → j ≤ i → deltaAt closes j = some 0) :
    gainAt closes i = some 0 ∧ lossAt closes i = some 0 ∧ rsiAt closes i = none := by
  have hg : gainAt closes i = some 0 := by
    rw [gainAt, if_pos ⟨by omega, hlen⟩]
    have hsum : ((List.range 14).map (fun t => gainRawAt closes (i - 13 + t))).sum = 0 := by
      apply List.sum_eq_zero
      intro x hx
      simp only [List.mem_map, List.mem_range] at hx
      obtain ⟨t, ht, rfl⟩ := hx
      have hd := hflat (i - 13 + t) (by omega) (by omega)
      simp [gainRawAt, hd]
    rw [hsum]
    norm_num
  have hl : lossAt closes i = some 0 := by
    rw [lossAt, if_pos ⟨by omega, hlen⟩]
    have hsum : ((List.range 14).map (fun t => lossRawAt closes (i - 13 + t))).sum = 0 := by
      apply List.sum_eq_zero
      intro x hx
      simp only [List.mem_map, List.mem_range] at hx
      obtain ⟨t, ht, rfl⟩ := hx
      have hd := hflat (i - 13 + t) (by omega) (by omega)
      simp [lossRawAt, hd]
    rw [hsum]
    norm_num
  refine ⟨hg, hl, ?_⟩
  rw [rsiAt, hg, hl]
  simp

/-- Witness for C10: fifteen equal closes, `i = 14`. -/
theorem rsi_flat_witness :
    (14 ≤ 14 ∧ 14 < ([5, 5, 5, 5, 5, 5, 5, 5, 5, 5, 5, 5, 5, 5, 5] : List ℚ).length ∧
     (∀ j, 14 - 13 ≤ j → j ≤ 14 →
       deltaAt [5, 5, 5, 5, 5, 5, 5, 5, 5, 5, 5, 5, 5, 5, 5] j = some 0)) ∧
    (gainAt [5, 5, 5, 5, 5, 5, 5, 5, 5, 5, 5, 5, 5, 5, 5] 14 = some 0 ∧
     lossAt [5, 5, 5, 5, 5, 5, 5, 5, 5, 5, 5, 5, 5, 5, 5] 14 = some 0 ∧
     rsiAt [5, 5, 5, 5, 5, 5, 5, 5, 5, 5, 5, 5, 5, 5, 5] 14 = none) := by
  have hflat : ∀ j, 14 - 13 ≤ j → j ≤ 14 →
      deltaAt ([5, 5, 5, 5, 5, 5, 5, 5, 5, 5, 5, 5, 5, 5, 5] : List ℚ) j = some 0 := by
    intro j h1 h2
    have h1' : 1 ≤ j := by omega
    interval_cases j <;> norm_num [deltaAt]
  exact ⟨⟨by decide, by decide, hflat⟩, rsi_flat _ 14 (by decide) (by decide) hflat⟩

/-- Sample variance (pandas default `ddof = 1`) of a list of rationals. -/
def sampleVar (xs : List ℚ) : ℚ :=
  (xs.map (fun x => (x - mean xs) ^ 2)).sum / ((xs.length : ℚ) - 1)

/-- The rolling `ddof = 1` variance underlying
`df['Close'].rolling(window=w, min_periods=1).std()`: computed over the same
shrinking window as the mean, `NaN` (here `none`) when fewer than two samples
exist. -/
def rollingVarAt (closes : List ℚ) (w i : ℕ) : Option ℚ :=
  if 2 ≤ (windowAt closes w i).length then some (sampleVar (windowAt closes w i))
  else none

/-- `df['STD']` at position `i` (source line 93): square root of the rolling
sample variance. -/
noncomputable def rollingStdAt (closes : List ℚ) (w i : ℕ) : Option ℝ :=
  (rollingVarAt closes w i).map (fun v : ℚ => Real.sqrt (v : ℝ))

/-- `df['Upper'] = df['SMA'] + (df['STD'] * std_dev)` (source line 95); a
missing standard deviation propagates. -/
noncomputable def upperAt (closes : List ℚ) (w : ℕ) (k : ℝ) (i : ℕ) : Option ℝ :=
  (rollingStdAt closes w i).map (fun s => (smaAt closes w i : ℝ) + s * k)

/-- `df['Lower'] = df['SMA'] - (df['STD'] * std_dev)` (source line 96). -/
noncomputable def lowerAt (closes : List ℚ) (w : ℕ) (k : ℝ) (i : ℕ) : Option ℝ :=
  (rollingStdAt closes w i).map (fun s => (smaAt closes w i : ℝ) - s * k)

/-- C5: the rolling standard deviation is the `ddof = 1` standard deviation of
the very window `windowAt` that the SMA averages over, and it is missing
exactly where that window holds a single sample: position 0 is missing,
position 1 and beyond are defined (given `n ≥ 2`, `w ≥ 2`). -/
theorem rollingstd_spec (closes : List ℚ) (w : ℕ)
    (hn : 2 ≤ closes.length) (hw : 2 ≤ w) :
    rollingStdAt closes w 0 = none ∧
    (rollingStdAt closes w 1).isSome ∧
    (∀ i, i < closes.length →
      (((rollingStdAt closes w i).isSome ↔ 1 ≤ i) ∧
       (1 ≤ i → rollingStdAt closes w i =
         some (Real.sqrt (sampleVar (windowAt closes w i) : ℝ))))) := by
  refine ⟨?_, ?_, ?_⟩
  · rw [rollingStdAt, rollingVarAt,
      if_neg (by rw [windowAt_length closes w 0 (by omega)]; omega),
      Option.map_none']
  · rw [rollingStdAt, rollingVarAt,
      if_pos (by rw [windowAt_length closes w 1 (by omega)]; omega),
      Option.map_some']
    rfl
  · intro i hi
    have hwin : (windowAt closes w i).length = min (i + 1) w :=
      windowAt_length closes w i hi
    by_cases hi1 : 1 ≤ i
    · have h2 : 2 ≤ (windowAt closes w i).length := by rw [hwin]; omega
      have heq : rollingStdAt closes w i =
          some (Real.sqrt (sampleVar (windowAt closes w i) : ℝ)) := by
        rw [rollingStdAt, rollingVarAt, if_pos h2, Option.map_some']
      exact ⟨⟨fun _ => hi1, fun _ => by rw [heq]; rfl⟩, fun _ => heq⟩
    · have h2 : ¬ 2 ≤ (windowAt closes w i).length := by rw [hwin]; omega
      have heq : rollingStdAt closes w i = none := by
        rw [rollingStdAt, rollingVarAt, if_neg h2, Option.map_none']
      refine ⟨⟨fun habs => ?_, fun h => absurd h hi1⟩, fun h => absurd h hi1⟩
      rw [heq] at habs
      simp at habs

/-- Witness for C5 at `closes = [10, 11]`, `w = 2`. -/
theorem rollingstd_spec_witness :
    (2 ≤ ([10, 11] : List ℚ).length ∧ 2 ≤ 2) ∧
    (rollingStdAt [10, 11] 2 0 = none ∧
     (rollingStdAt [10, 11] 2 1).isSome ∧
     (∀ i, i < ([10, 11] : List ℚ).length →
       (((rollingStdAt [10, 11] 2 i).isSome ↔ 1 ≤ i) ∧
        (1 ≤ i → rollingStdAt [10, 11] 2 i =
          some (Real.sqrt (sampleVar (windowAt [10, 11] 2 i) : ℝ)))))) :=
  ⟨⟨by decide, by decide⟩, rollingstd_spec [10, 11] 2 (by decide) (by decide)⟩

/-- C4: wherever the rolling standard deviation is defined, the bands are
`SMA ± k·Std`, and consequently their difference is `2·k·Std`. -/
theorem bollinger_bands (closes : List ℚ) (w : ℕ) (k : ℝ) (i : ℕ) (s : ℝ)
    (hs : rollingStdAt closes w i = some s) :
    upperAt closes w k i = some ((smaAt closes w i : ℝ) + k * s) ∧
    lowerAt closes w k i = some ((smaAt closes w i : ℝ) - k * s) ∧
    (∀ u l, upperAt closes w k i = some u → lowerAt closes w k i = some l →
      u - l = 2 * k * s) := by
  have hu : upperAt closes w k i = some ((smaAt closes w i : ℝ) + s * k) := by
    rw [upperAt, hs, Option.map_some']
  have hl : lowerAt closes w k i = some ((smaAt closes w i : ℝ) - s * k) := by
    rw [lowerAt, hs, Option.map_some']
  refine ⟨by rw [hu, mul_comm s k], by rw [hl, mul_comm s k], ?_⟩
  intro u l hu2 hl2
  rw [hu] at hu2
  rw [hl] at hl2
  obtain rfl := Option.some.inj hu2
  obtain rfl := Option.some.inj hl2
  ring

/-- Witness for C4 at `closes = [10, 11]`, `w = 2`, `k = 2`, `i = 1`. -/
theorem bollinger_bands_witness :
    rollingStdAt [10, 11] 2 1 =
      some (Real.sqrt (sampleVar (windowAt [10, 11] 2 1) : ℝ)) ∧
    (upperAt [10, 11] 2 2 1 =
      some ((smaAt [10, 11] 2 1 : ℝ) +
        2 * Real.sqrt (sampleVar (windowAt [10, 11] 2 1) : ℝ)) ∧
     lowerAt [10, 11] 2 2 1 =
      some ((smaAt [10, 11] 2 1 : ℝ) -
        2 * Real.sqrt (sampleVar (windowAt [10, 11] 2 1) : ℝ)) ∧
     (∀ u l, upperAt [10, 11] 2 2 1 = some u → lowerAt [10, 11] 2 2 1 = some l →
       u - l = 2 * 2 * Real.sqrt (sampleVar (windowAt [10, 11] 2 1) : ℝ))) := by
  have hs : rollingStdAt ([10, 11] : List ℚ) 2 1 =
      some (Real.sqrt (sampleVar (windowAt [10, 11] 2 1) : ℝ)) := by
    rw [rollingStdAt, rollingVarAt,
      if_pos (by decide : 2 ≤ (windowAt ([10, 11] : List ℚ) 2 1).length),
      Option.map_some']
  exact ⟨hs, bollinger_bands _ 2 2 1 _ hs⟩

/-- C3 counterexample: with fourteen strictly increasing closes the code
already defines RSI at index 13 (value 100), whereas the claim requires RSI to
be a missing value at every `i < 14`. -/
theorem rsi_defined_at_13 :
    rsiAt [0, 1, 2, 3, 4, 5, 6, 7, 8, 9, 10, 11, 12, 13] 13 = some 100 := by
  norm_num [rsiAt, gainAt, lossAt, gainRawAt, lossRawAt, deltaAt, List.range_succ]

/-- C3 amended: gains and losses are the positive/negative parts of each
period-over-period delta, and real deltas exist exactly at positions
`1 ≤ j < n`; the 14-period rolling averages (hence RSI) are missing for
`i < 13` and beyond the frame; at `i = 13`, however, they are already defined
because `where(..., 0)` masks the leading `NaN` delta to a zero gain and zero
loss; only for `i ≥ 14` do the averages run over exactly the 14 most recent
real deltas. -/
theorem rsi_window_spec (closes : List ℚ) :
    (∀ j d, deltaAt closes j = some d →
      gainRawAt closes j = max d 0 ∧ lossRawAt closes j = max (-d) 0) ∧
    (∀ i, i < 13 → gainAt closes i = none ∧ lossAt closes i = none ∧
      rsiAt closes i = none) ∧
    (∀ i, closes.length ≤ i → rsiAt closes i = none) ∧
    (14 ≤ closes.length →
      deltaAt closes 0 = none ∧ gainRawAt closes 0 = 0 ∧ lossRawAt closes 0 = 0 ∧
      (gainAt closes 13).isSome ∧ (lossAt closes 13).isSome) ∧
    (∀ i, 14 ≤ i → i < closes.length →
      (∀ t, t < 14 → ∃ d, deltaAt closes (i - 13 + t) = some d) ∧
      gainAt closes i =
        some (((List.range 14).map (fun t => gainRawAt closes (i - 13 + t))).sum / 14) ∧
      lossAt closes i =
        some (((List.range 14).map (fun t => lossRawAt closes (i - 13 + t))).sum / 14)) := by
  refine ⟨?_, ?_, ?_, ?_, ?_⟩
  · intro j d hd
    constructor
    · simp only [gainRawAt, hd]
      rcases le_or_lt d 0 with h | h
      · rw [if_neg (not_lt.mpr h), max_eq_right h]
      · rw [if_pos h, max_eq_left (le_of_lt h)]
    · simp only [lossRawAt, hd]
      rcases le_or_lt 0 d with h | h
      · rw [if_neg (not_lt.mpr h), max_eq_right (by linarith)]
      · rw [if_pos h, max_eq_left (by linarith)]
  · intro i hi
    have hg : gainAt closes i = none := by
      rw [gainAt, if_neg]; omega
    have hl : lossAt closes i = none := by
      rw [lossAt, if_neg]; omega
    exact ⟨hg, hl, by rw [rsiAt, hg, Option.none_bind]⟩
  · intro i hi
    have hg : gainAt closes i = none := by
      rw [gainAt, if_neg]; omega
    rw [rsiAt, hg, Option.none_bind]
  · intro hn
    refine ⟨?_, ?_, ?_, ?_, ?_⟩
    · rw [deltaAt, if_neg]; omega
    · have h0 : deltaAt closes 0 = none := by rw [deltaAt, if_neg]; omega
      simp [gainRawAt, h0]
    · have h0 : deltaAt closes 0 = none := by rw [deltaAt, if_neg]; omega
      simp [lossRawAt, h0]
    · rw [gainAt, if_pos ⟨by omega, by omega⟩]; rfl
    · rw [lossAt, if_pos ⟨by omega, by omega⟩]; rfl
  · intro i h14 hlen
    refine ⟨?_, ?_, ?_⟩
    · intro t ht
      exact ⟨_, by rw [deltaAt, if_pos ⟨by omega, by omega⟩]⟩
    · rw [gainAt, if_pos ⟨by omega, hlen⟩]
    · rw [lossAt, if_pos ⟨by omega, hlen⟩]

/-- Witness for C3 (amended): the gain/loss split evaluated on a concrete
delta of the sequence used throughout. -/
theorem rsi_window_spec_witness :
    deltaAt [0, 1, 2, 3, 4, 5, 6, 7, 8, 9, 10, 11, 12, 13, 12] 14 = some (-1) ∧
    (gainRawAt [0, 1, 2, 3, 4, 5, 6, 7, 8, 9, 10, 11, 12, 13, 12] 14 = max (-1) 0 ∧
     lossRawAt [0, 1, 2, 3, 4, 5, 6, 7, 8, 9, 10, 11, 12, 13, 12] 14 = max (-(-1)) 0) := by
  have hd : deltaAt [0, 1, 2, 3, 4, 5, 6, 7, 8, 9, 10, 11, 12, 13, 12] 14 = some (-1) := by
    norm_num [deltaAt]
  exact ⟨hd, (rsi_window_spec _).1 14 (-1) hd⟩

/-- One OHLCV bar; `ts` is the bar's hour index (the `1h` download produces
one bar per hour), prices and volume are exact rationals. -/
structure Bar where
  ts : ℕ
  Open : ℚ
  High : ℚ
  Low : ℚ
  Close : ℚ
  Volume : ℚ
deriving DecidableEq

/-- Interval fallback (source lines 64-69): yfinance has no native `4h`
interval, so the script downloads `1h` bars instead; every other choice is
passed through. -/
def yfInterval (interval : String) : String :=
  if interval = "4h" then "1h" else interval

/-- The 4-hour bucket a 1-hour bar falls into: `df.resample('4h')` groups the
index into non-overlapping consecutive 4-hour spans. -/
def bucketOf (t : ℕ) : ℕ := t / 4

/-- The bars contributing to bucket `b`. -/
def barsInBucket (bars : List Bar) (b : ℕ) : List Bar :=
  bars.filter (fun x => bucketOf x.ts == b)

/-- `.agg({'Open': 'first', 'High': 'max', 'Low': 'min', 'Close': 'last',
'Volume': 'sum'})` on one bucket (source lines 79-85); an empty bucket is the
all-`NaN` row that `.dropna()` removes, modelled as `none`. -/
def aggBucket (b : ℕ) (l : List Bar) : Option Bar :=
  match l with
  | [] => none
  | x :: xs =>
      some { ts := 4 * b,
             Open := x.Open,
             High := (xs.map Bar.High).foldl max x.High,
             Low := (xs.map Bar.Low).foldl min x.Low,
             Close := (xs.getLastD x).Close,
             Volume := ((x :: xs).map Bar.Volume).sum }

/-- `df.resample('4h').agg(...).dropna()` (source lines 79-86): one aggregated
row per non-empty 4-hour bucket. -/
def resample4h (bars : List Bar) : List Bar :=
  ((bars.map (fun x => bucketOf x.ts)).dedup).filterMap
    (fun b => aggBucket b (barsInBucket bars b))

theorem le_foldl_max (xs : List ℚ) (a : ℚ) :
    a ≤ xs.foldl max a ∧ ∀ x ∈ xs, x ≤ xs.foldl max a := by
  induction xs generalizing a with
  | nil => exact ⟨le_refl a, by simp⟩
  | cons y ys ih =>
      obtain ⟨h1, h2⟩ := ih (max a y)
      refine ⟨le_trans (le_max_left a y) h1, ?_⟩
      intro x hx
      rcases List.mem_cons.mp hx with rfl | hx
      · exact le_trans (le_max_right a x) h1
      · exact h2 x hx

theorem foldl_max_mem (xs : List ℚ) (a : ℚ) :
    xs.foldl max a = a ∨ xs.foldl max a ∈ xs := by
  induction xs generalizing a with
  | nil => exact Or.inl rfl
  | cons y ys ih =>
      simp only [List.foldl_cons]
      rcases ih (max a y) with h | h
      · rcases max_choice a y with hc | hc
        · exact Or.inl (by rw [h, hc])
        · exact Or.inr (by rw [h, hc]; exact List.mem_cons_self y ys)
      · exact Or.inr (List.mem_cons_of_mem y h)

theorem foldl_min_le (xs : List ℚ) (a : ℚ) :
    xs.foldl min a ≤ a ∧ ∀ x ∈ xs, xs.foldl min a ≤ x := by
  induction xs generalizing a with
  | nil => exact ⟨le_refl a, by simp⟩
  | cons y ys ih =>
      obtain ⟨h1, h2⟩ := ih (min a y)
      refine ⟨le_trans h1 (min_le_left a y), ?_⟩
      intro x hx
      rcases List.mem_cons.mp hx with rfl | hx
      · exact le_trans h1 (min_le_right a x)
      · exact h2 x hx

theorem foldl_min_mem (xs : List ℚ) (a : ℚ) :
    xs.foldl min a = a ∨ xs.foldl min a ∈ xs := by
  induction xs generalizing a with
  | nil => exact Or.inl rfl
  | cons y ys ih =>
      simp only [List.foldl_cons]
      rcases ih (min a y) with h | h
      · rcases min_choice a y with hc | hc
        · exact Or.inl (by rw [h, hc])
        · exact Or.inr (by rw [h, hc]; exact List.mem_cons_self y ys)
      · exact Or.inr (List.mem_cons_of_mem y h)

theorem getLast?_cons_getLastD (x : Bar) (xs : List Bar) :
    (x :: xs).getLast? = some (xs.getLastD x) := by
  induction xs generalizing x with
  | nil => rfl
  | cons y ys ih => rw [List.getLast?_cons_cons, ih y, List.getLastD_cons]

/-- C6: under a `4h` request the script fetches 1-hour bars
(`yfInterval "4h" = "1h"`); resampling groups bars by the non-overlapping
consecutive 4-hour span containing them; a row appears exactly for each
non-empty bucket; and each row carries the first bar's open, the max of the
highs, the min of the lows, the last bar's close and the sum of the volumes of
its bucket. -/
theorem resample_spec (bars : List Bar) :
    yfInterval "4h" = "1h" ∧
    (∀ x b, x ∈ barsInBucket bars b ↔
      (x ∈ bars ∧ 4 * b ≤ x.ts ∧ x.ts < 4 * b + 4)) ∧
    (∀ row, row ∈ resample4h bars ↔
      ∃ b, barsInBucket bars b ≠ [] ∧
        aggBucket b (barsInBucket bars b) = some row) ∧
    (∀ b x xs, barsInBucket bars b = x :: xs →
      ∃ row, aggBucket b (barsInBucket bars b) = some row ∧
        row.Open = x.Open ∧
        (∀ lst, (x :: xs).getLast? = some lst → row.Close = lst.Close) ∧
        row.Volume = ((x :: xs).map Bar.Volume).sum ∧
        (row.High ∈ (x :: xs).map Bar.High ∧
          ∀ v ∈ (x :: xs).map Bar.High, v ≤ row.High) ∧
        (row.Low ∈ (x :: xs).map Bar.Low ∧
          ∀ v ∈ (x :: xs).map Bar.Low, row.Low ≤ v)) := by
  refine ⟨rfl, ?_, ?_, ?_⟩
  · intro x b
    simp only [barsInBucket, List.mem_filter, beq_iff_eq, bucketOf]
    constructor
    · rintro ⟨h1, h2⟩
      exact ⟨h1, by omega⟩
    · rintro ⟨h1, h2⟩
      exact ⟨h1, by omega⟩
  · intro row
    rw [resample4h, List.mem_filterMap]
    constructor
    · rintro ⟨b, hb, hrow⟩
      refine ⟨b, ?_, hrow⟩
      rw [List.mem_dedup] at hb
      obtain ⟨x, hx, hbx⟩ := List.mem_map.mp hb
      intro hemp
      have hmem : x ∈ barsInBucket bars b := by
        rw [barsInBucket, List.mem_filter]
        exact ⟨hx, by rw [beq_iff_eq, hbx]⟩
      rw [hemp] at hmem
      cases hmem
    · rintro ⟨b, hne, hrow⟩
      refine ⟨b, ?_, hrow⟩
      rw [List.mem_dedup]
      obtain ⟨x, hx⟩ := List.exists_mem_of_ne_nil _ hne
      rw [barsInBucket, List.mem_filter] at hx
      exact List.mem_map.mpr ⟨x, hx.1, beq_iff_eq.mp hx.2⟩
  · intro b x xs hbx
    rw [hbx]
    refine ⟨_, rfl, rfl, ?_, rfl, ?_, ?_⟩
    · intro lst hlst
      rw [getLast?_cons_getLastD] at hlst
      rw [← Option.some.inj hlst]
    · constructor
      · simp only [List.map_cons]
        rcases foldl_max_mem (xs.map Bar.High) x.High with h | h
        · rw [h]
          exact List.mem_cons_self _ _
        · exact List.mem_cons_of_mem _ h
      · intro v hv
        simp only [List.map_cons, List.mem_cons] at hv
        rcases hv with rfl | hv
        · exact (le_foldl_max (xs.map Bar.High) x.High).1
        · exact (le_foldl_max (xs.map Bar.High) x.High).2 v hv
    · constructor
      · simp only [List.map_cons]
        rcases foldl_min_mem (xs.map Bar.Low) x.Low with h | h
        · rw [h]
          exact List.mem_cons_self _ _
        · exact List.mem_cons_of_mem _ h
      · intro v hv
        simp only [List.map_cons, List.mem_cons] at hv
        rcases hv with rfl | hv
        · exact (foldl_min_le (xs.map Bar.Low) x.Low).1
        · exact (foldl_min_le (xs.map Bar.Low) x.Low).2 v hv

/-- Witness for C6: three hourly bars, two of them in bucket 0, aggregated. -/
theorem resample_spec_witness :
    barsInBucket
        [⟨0, 1, 3, 1, 2, 10⟩, ⟨1, 2, 5, 0, 4, 20⟩, ⟨5, 4, 6, 3, 5, 30⟩] 0 =
      [⟨0, 1, 3, 1, 2, 10⟩, ⟨1, 2, 5, 0, 4, 20⟩] ∧
    (∃ row,
      aggBucket 0 (barsInBucket
        [⟨0, 1, 3, 1, 2, 10⟩, ⟨1, 2, 5, 0, 4, 20⟩, ⟨5, 4, 6, 3, 5, 30⟩] 0) =
          some row ∧
      row.Open = (⟨0, 1, 3, 1, 2, 10⟩ : Bar).Open ∧
      (∀ lst, ([⟨0, 1, 3, 1, 2, 10⟩, ⟨1, 2, 5, 0, 4, 20⟩] : List Bar).getLast? =
        some lst → row.Close = lst.Close) ∧
      row.Volume = (([⟨0, 1, 3, 1, 2, 10⟩, ⟨1, 2, 5, 0, 4, 20⟩] : List Bar).map
        Bar.Volume).sum ∧
      (row.High ∈ ([⟨0, 1, 3, 1, 2, 10⟩, ⟨1, 2, 5, 0, 4, 20⟩] : List Bar).map
          Bar.High ∧
        ∀ v ∈ ([⟨0, 1, 3, 1, 2, 10⟩, ⟨1, 2, 5, 0, 4, 20⟩] : List Bar).map
          Bar.High, v ≤ row.High) ∧
      (row.Low ∈ ([⟨0, 1, 3, 1, 2, 10⟩, ⟨1, 2, 5, 0, 4, 20⟩] : List Bar).map
          Bar.Low ∧
        ∀ v ∈ ([⟨0, 1, 3, 1, 2, 10⟩, ⟨1, 2, 5, 0, 4, 20⟩] : List Bar).map
          Bar.Low, row.Low ≤ v)) := by
  have hb : barsInBucket
      ([⟨0, 1, 3, 1, 2, 10⟩, ⟨1, 2, 5, 0, 4, 20⟩, ⟨5, 4, 6, 3, 5, 30⟩] : List Bar) 0 =
      [⟨0, 1, 3, 1, 2, 10⟩, ⟨1, 2, 5, 0, 4, 20⟩] := by decide
  exact ⟨hb,
    (resample_spec [⟨0, 1, 3, 1, 2, 10⟩, ⟨1, 2, 5, 0, 4, 20⟩, ⟨5, 4, 6, 3, 5, 30⟩]).2.2.2
      0 ⟨0, 1, 3, 1, 2, 10⟩ [⟨1, 2, 5, 0, 4, 20⟩] hb⟩

/-- `colors = ['green' if row['Open'] - row['Close'] >= 0 else 'red' ...]`
(source line 141). -/
def volColor (row : Bar) : String :=
  if row.Open - row.Close ≥ 0 then "green" else "red"

/-- The per-bar color list fed to the volume panel. -/
def colors (df : List Bar) : List String := df.map volColor

/-- C9 evaluation at the failing input: a rising bar (open 1, close 2) is
colored red and a falling bar (open 2, close 1) green — the reverse of the
claimed rule (and of the comment on source line 140, which announces green
for `Close > Open`). -/
theorem volume_colors_flipped :
    colors [⟨0, 1, 2, 1, 2, 10⟩, ⟨1, 2, 2, 1, 1, 10⟩] = ["red", "green"] := by
  norm_num [colors, volColor]

/-- Quote snapshot from the fundamentals provider (Rug). -/
structure Fundamentals where
  name : String
  price : String
  change : String
  changePercent : String

/-- The user-visible outcomes of one run, in emission order. -/
inductive Output where
  | metricsPanel (name price change changePercent : String)
  | errorMsg (msg : String)
  | chart (df : List Bar) (sma : List ℚ) (upper lower : List (Option ℝ))
      (rsi : List (Option ℚ)) (volColors : List String)
  | warning (msg : String)

/-- The `try/except` around the Rug calls (source lines 25-47): on success the
three metric columns are shown, on failure an inline error message. -/
def fundamentalsPhase (res : Except String Fundamentals) : List Output :=
  match res with
  | .ok f => [Output.metricsPanel f.name f.price f.change f.changePercent]
  | .error e => [Output.errorMsg ("Could not retrieve data from Rug: " ++ e)]

/-- The chart the renderer receives: the bars plus every derived series
(source lines 105-157). -/
noncomputable def renderChart (df : List Bar) (w : ℕ) (k : ℝ) : Output :=
  Output.chart df
    (smaSeq (df.map Bar.Close) w)
    ((List.range df.length).map (upperAt (df.map Bar.Close) w k))
    ((List.range df.length).map (lowerAt (df.map Bar.Close) w k))
    ((List.range df.length).map (rsiAt (df.map Bar.Close)))
    (colors df)

/-- The `try` block around download, resampling, indicators and chart (source
lines 51-163): an exception yields the technicals error message; an empty
frame yields the warning; otherwise the chart is rendered. -/
noncomputable def historyPhase (interval : String)
    (res : Except String (List Bar)) (w : ℕ) (k : ℝ) : List Output :=
  match res with
  | .error e => [Output.errorMsg ("Error calculating technicals: " ++ e)]
  | .ok df0 =>
      let df := if interval = "4h" ∧ df0 ≠ [] then resample4h df0 else df0
      if df ≠ [] then [renderChart df w k]
      else [Output.warning "No historical price data found."]

/-- One full run (source lines 22-163): the fundamentals block runs first and
the history/chart block second, whatever the first block's outcome. -/
noncomputable def run (fund : Except String Fundamentals)
    (hist : Except String (List Bar)) (interval : String) (w : ℕ) (k : ℝ) :
    List Output :=
  fundamentalsPhase fund ++ historyPhase interval hist w k

/-- C7: a failing fundamentals fetch shows the inline error message, and the
rest of the run is exactly the history phase — the same list of outcomes a
successful fundamentals fetch is followed by, so history fetch, indicator
computation and chart rendering are unaffected. -/
theorem fundamentals_failure_isolated (e : String)
    (hist : Except String (List Bar)) (interval : String) (w : ℕ) (k : ℝ) :
    run (Except.error e) hist interval w k =
      Output.errorMsg ("Could not retrieve data from Rug: " ++ e) ::
        historyPhase interval hist w k ∧
    (∀ f, run (Except.ok f) hist interval w k =
      Output.metricsPanel f.name f.price f.change f.changePercent ::
        historyPhase interval hist w k) :=
  ⟨rfl, fun _ => rfl⟩

/-- C8: an empty bar sequence from the provider produces exactly the "no data"
warning: the renderer is never invoked, no error message is emitted, and the
fundamentals phase is unaffected. -/
theorem empty_data_warns (interval : String) (w : ℕ) (k : ℝ) :
    historyPhase interval (Except.ok []) w k =
      [Output.warning "No historical price data found."] ∧
    (∀ o ∈ historyPhase interval (Except.ok []) w k,
      (∀ df sma upper lower rsi vc, o ≠ Output.chart df sma upper lower rsi vc) ∧
      (∀ msg, o ≠ Output.errorMsg msg)) ∧
    (∀ fund, run fund (Except.ok []) interval w k =
      fundamentalsPhase fund ++ [Output.warning "No historical price data found."]) := by
  have h : historyPhase interval (Except.ok []) w k =
      [Output.warning "No historical price data found."] := by
    simp [historyPhase]
  refine ⟨h, ?_, ?_⟩
  · intro o ho
    rw [h, List.mem_singleton] at ho
    subst ho
    exact ⟨fun df sma upper lower rsi vc hcon => Output.noConfusion hcon,
      fun msg hcon => Output.noConfusion hcon⟩
  · intro fund
    rw [run, h]

/-- Witness for C8 at `interval = "1d"`, `w = 20`, `k = 2`. -/
theorem empty_data_warns_witness :
    Output.warning "No historical price data found." ∈
      historyPhase "1d" (Except.ok []) 20 2 ∧
    ((∀ df sma upper lower rsi vc,
        Output.warning "No historical price data found." ≠
          Output.chart df sma upper lower rsi vc) ∧
     (∀ msg, Output.warning "No historical price data found." ≠
        Output.errorMsg msg)) := by
  have hmem : Output.warning "No historical price data found." ∈
      historyPhase "1d" (Except.ok []) 20 2 := by
    simp [historyPhase]
  exact ⟨hmem, (empty_data_warns "1d" 20 2).2.1 _ hmem⟩

end Dashboard
